import Mathlib

/-!
Verification of the poetry console core against its specification.

The development shallowly embeds the two excerpted source files:

* `src/poetry/utils/_compat.py` — the `decode`/`encode` text helpers,
  modelled in namespace `Compat`.  Python byte strings are lists of byte
  values, Python text strings are lists of Unicode code points, and the
  three codecs named in the source (`utf-8`, `latin1`, `ascii`) are
  implemented concretely, including a full executable UTF-8
  encoder/decoder.
* `src/poetry/console/application.py` — the `Application` class,
  modelled in namespace `Console`.  External collaborators (the cleo
  argument parser, the plugin discovery mechanism, the poetry factory)
  are represented by explicit parameters or opaque identifiers; the
  control flow of the excerpted methods is translated statement by
  statement.
-/

namespace Compat

/-- A Python byte string: a list of byte values. -/
abbrev Bytes := List Nat

/-- A Python text string: a list of Unicode code points. -/
abbrev Str := List Nat

/-- Code points reserved as UTF-16 surrogates; they are not encodable in
UTF-8 (Python raises `UnicodeEncodeError` on them). -/
abbrev Surrogate (c : Nat) : Prop := 0xD800 ≤ c ∧ c ≤ 0xDFFF

/-- UTF-8 encoding of a single code point, `none` when the code point is
not encodable (a surrogate, or out of the Unicode range). -/
def utf8EncodeChar (c : Nat) : Option (List Nat) :=
  if c < 0x80 then some [c]
  else if c < 0x800 then some [0xC0 + c / 64, 0x80 + c % 64]
  else if c < 0x10000 then
    if Surrogate c then none
    else some [0xE0 + c / 4096, 0x80 + c / 64 % 64, 0x80 + c % 64]
  else if c < 0x110000 then
    some [0xF0 + c / 262144, 0x80 + c / 4096 % 64, 0x80 + c / 64 % 64, 0x80 + c % 64]
  else none

/-- Strict UTF-8 encoding of a string (Python `str.encode("utf-8")`):
fails when any code point is unencodable. -/
def utf8Encode : Str → Option Bytes
  | [] => some []
  | c :: cs =>
    match utf8EncodeChar c, utf8Encode cs with
    | some e, some r => some (e ++ r)
    | _, _ => none

/-- UTF-8 encoding with `errors="ignore"`: unencodable code points are
dropped.  Total by construction. -/
def utf8EncodeIgnore : Str → Bytes
  | [] => []
  | c :: cs => (utf8EncodeChar c).getD [] ++ utf8EncodeIgnore cs

/-- A UTF-8 continuation byte. -/
abbrev IsCont (b : Nat) : Prop := 0x80 ≤ b ∧ b < 0xC0

/-- Decode one UTF-8 character from the front of a byte list: the
decoded code point and the remaining bytes, or `none` when the front is
not a valid sequence (bad leading byte, truncated sequence, bad
continuation byte, overlong form, surrogate, out-of-range code
point). -/
def utf8Step : Bytes → Option (Nat × Bytes)
  | [] => none
  | b0 :: rest =>
    if b0 < 0x80 then some (b0, rest)
    else if 0xC2 ≤ b0 ∧ b0 < 0xE0 then
      match rest.head? with
      | some b1 =>
        if IsCont b1 then some ((b0 - 0xC0) * 64 + (b1 - 0x80), rest.tail) else none
      | none => none
    else if 0xE0 ≤ b0 ∧ b0 < 0xF0 then
      match rest.head?, rest.tail.head? with
      | some b1, some b2 =>
        let c := (b0 - 0xE0) * 4096 + (b1 - 0x80) * 64 + (b2 - 0x80)
        if IsCont b1 ∧ IsCont b2 ∧ 0x800 ≤ c ∧ ¬ Surrogate c then
          some (c, rest.tail.tail)
        else none
      | _, _ => none
    else if 0xF0 ≤ b0 ∧ b0 < 0xF5 then
      match rest.head?, rest.tail.head?, rest.tail.tail.head? with
      | some b1, some b2, some b3 =>
        let c := (b0 - 0xF0) * 262144 + (b1 - 0x80) * 4096 + (b2 - 0x80) * 64 + (b3 - 0x80)
        if IsCont b1 ∧ IsCont b2 ∧ IsCont b3 ∧ 0x10000 ≤ c ∧ c < 0x110000 then
          some (c, rest.tail.tail.tail)
        else none
      | _, _, _ => none
    else none

/-- Fuel-indexed worker for `utf8Decode`; the fuel only bounds the
recursion depth (each step consumes at least one byte, so a fuel equal
to the byte count is always sufficient, and the top-level wrapper always
supplies it). -/
def utf8DecodeAux : Nat → Bytes → Option Str
  | _, [] => some []
  | 0, _ :: _ => none
  | fuel + 1, b0 :: rest =>
    match utf8Step (b0 :: rest) with
    | some (c, restN) => (utf8DecodeAux fuel restN).map (c :: ·)
    | none => none

/-- Strict UTF-8 decoding (Python `bytes.decode("utf-8")`): fails on any
malformed sequence. -/
def utf8Decode (bs : Bytes) : Option Str :=
  utf8DecodeAux bs.length bs

/-- Fuel-indexed worker for `utf8DecodeIgnore`. -/
def utf8DecodeIgnoreAux : Nat → Bytes → Str
  | _, [] => []
  | 0, _ :: _ => []
  | fuel + 1, b0 :: rest =>
    match utf8Step (b0 :: rest) with
    | some (c, restN) => c :: utf8DecodeIgnoreAux fuel restN
    | none => utf8DecodeIgnoreAux fuel rest

/-- UTF-8 decoding with `errors="ignore"`: a byte that does not start a
valid sequence is skipped and decoding resumes at the next byte.  Total
by construction. -/
def utf8DecodeIgnore (bs : Bytes) : Str :=
  utf8DecodeIgnoreAux bs.length bs

/-- The encodings the source ever names: `["utf-8", "latin1", "ascii"]`. -/
inductive Encoding
  | utf8
  | latin1
  | ascii
deriving DecidableEq, Repr

/-- Strict decoding for one named codec (`bytes.decode(encoding)`,
`none` standing for a raised `UnicodeDecodeError`).  latin1 maps every
byte to the code point of the same value and never fails; ascii accepts
only bytes below 128. -/
def codecDecode : Encoding → Bytes → Option Str
  | .utf8 => utf8Decode
  | .latin1 => fun b => some b
  | .ascii => fun b => if b.all (· < 0x80) then some b else none

/-- Decoding with `errors="ignore"` for one named codec; total. -/
def codecDecodeIgnore : Encoding → Bytes → Str
  | .utf8 => utf8DecodeIgnore
  | .latin1 => fun b => b
  | .ascii => fun b => b.filter (· < 0x80)

/-- Strict encoding for one named codec (`str.encode(encoding)`, `none`
standing for a raised `UnicodeEncodeError`). -/
def codecEncode : Encoding → Str → Option Bytes
  | .utf8 => utf8Encode
  | .latin1 => fun s => if s.all (· < 0x100) then some s else none
  | .ascii => fun s => if s.all (· < 0x80) then some s else none

/-- Encoding with `errors="ignore"` for one named codec; total. -/
def codecEncodeIgnore : Encoding → Str → Bytes
  | .utf8 => utf8EncodeIgnore
  | .latin1 => fun s => s.filter (· < 0x100)
  | .ascii => fun s => s.filter (· < 0x80)

/-- The default encoding list of `decode`/`encode`. -/
def defaultEncodings : List Encoding := [.utf8, .latin1, .ascii]

/-- `encodings = encodings or ["utf-8", "latin1", "ascii"]`: `None` and
the empty list are falsy in Python, so both select the default list. -/
def normEncodings : Option (List Encoding) → List Encoding
  | none => defaultEncodings
  | some es => if es.isEmpty then defaultEncodings else es

/-- A value that is either a Python byte string or a text string (the
`bytes | str` argument type of `decode` and `encode`). -/
inductive BytesOrStr
  | bytes (b : Bytes)
  | str (s : Str)
deriving DecidableEq, Repr

/-- The `for encoding in encodings: with suppress(...): return
string.decode(encoding)` loop: first codec that succeeds wins. -/
def tryDecode : List Encoding → Bytes → Option Str
  | [], _ => none
  | e :: es, b =>
    match codecDecode e b with
    | some s => some s
    | none => tryDecode es b

/-- The symmetric loop of `encode`. -/
def tryEncode : List Encoding → Str → Option Bytes
  | [], _ => none
  | e :: es, s =>
    match codecEncode e s with
    | some b => some b
    | none => tryEncode es s

/-- `poetry.utils._compat.decode`: a text string is returned unchanged;
a byte string is decoded by the first listed codec that succeeds, and if
all fail, by the first listed codec with `errors="ignore"`. -/
def decode (string : BytesOrStr) (encodings : Option (List Encoding) := none) : Str :=
  match string with
  | .str s => s
  | .bytes b =>
    let encs := normEncodings encodings
    match tryDecode encs b with
    | some s => s
    | none => codecDecodeIgnore (encs.headD .utf8) b

/-- `poetry.utils._compat.encode`: a byte string is returned unchanged;
a text string is encoded by the first listed codec that succeeds, and if
all fail, by the first listed codec with `errors="ignore"`. -/
def encode (string : BytesOrStr) (encodings : Option (List Encoding) := none) : Bytes :=
  match string with
  | .bytes b => b
  | .str s =>
    let encs := normEncodings encodings
    match tryEncode encs s with
    | some b => b
    | none => codecEncodeIgnore (encs.headD .utf8) s

example : utf8Encode [104, 233, 8364, 128512] =
    some [104, 0xC3, 0xA9, 0xE2, 0x82, 0xAC, 0xF0, 0x9F, 0x98, 0x80] := by decide
example : utf8Decode [104, 0xC3, 0xA9, 0xE2, 0x82, 0xAC, 0xF0, 0x9F, 0x98, 0x80] =
    some [104, 233, 8364, 128512] := by decide
example : utf8Decode [0xC0, 0x80] = none := by decide
example : decode (.bytes [0xFF]) none = [0xFF] := by decide
example : decode (.bytes [0xFF]) (some [.ascii]) = [] := by decide
example : encode (.str [104, 105]) none = [104, 105] := by decide

end Compat

namespace Console

/-- A bound option value as cleo stores it: Python `None`, a boolean
(flag options) or a string.  `truthy` is Python truthiness, which the
source tests with `if value:`. -/
inductive OptValue
  | null
  | bool (b : Bool)
  | str (s : String)
deriving DecidableEq, Repr

def OptValue.truthy : OptValue → Bool
  | .null => false
  | .bool b => b
  | .str s => !s.isEmpty

/-- An application-level option of the definition: its long name and its
(possibly compound) declared shortcut string. -/
structure Opt where
  name : String
  shortcut : Option String
deriving DecidableEq, Repr

/-- The application option definition (the relevant payload of cleo's
`Definition`): the list of declared application-level options. -/
abbrev Defn := List Opt

/-- `definition.option(name)`: look an option up by its long name. -/
def findOption (d : Defn) (n : String) : Option Opt :=
  d.find? (fun o => o.name == n)

/-- The four custom application options `Application._default_definition`
adds on top of the base definition. -/
def customApplicationOptions : Defn :=
  [⟨"no-plugins", none⟩, ⟨"no-cache", none⟩, ⟨"project", some "P"⟩, ⟨"directory", some "C"⟩]

/-- `str.lstrip("-")`: drop every leading dash. -/
def lstripDash (s : String) : String :=
  String.mk (s.toList.dropWhile (· = '-'))

/-- Worker for `splitShortcut`: scan the characters, closing the current
segment at every separator `|`; a single dash directly after a separator
belongs to the separator (the regex is matched greedily), which the flag
records. -/
def splitGo : Bool → List Char → List Char → List String
  | _, acc, [] => [String.mk acc.reverse]
  | skipDash, acc, c :: rest =>
    if c = '|' then String.mk acc.reverse :: splitGo true [] rest
    else if skipDash = true ∧ c = '-' then splitGo false acc rest
    else splitGo false (c :: acc) rest

/-- `re.split(r"\x7c-?", shortcut.lstrip("-"))`: split the dash-stripped
shortcut string at every separator, a separator being a pipe optionally
followed by one dash. -/
def splitShortcut (s : String) : List String :=
  splitGo false [] (lstripDash s).toList

example : splitShortcut "-x|-y" = ["x", "y"] := by decide
example : splitShortcut "x|y" = ["x", "y"] := by decide
example : splitShortcut "--a|b|-c" = ["a", "b", "c"] := by decide
example : splitShortcut "x||-y" = ["x", "", "y"] := by decide

/-- The original command-line input after the first permissive bind: its
raw tokens and the bound application-level options (a Python dict,
i.e. an association list with unique keys in insertion order). -/
structure ArgvInput where
  tokens : List String
  options : List (String × OptValue)
deriving DecidableEq, Repr

/-- The rewritten pass-through input (`RunArgvInput`): the new token
list, the recognized-parameter allowlist built by
`add_parameter_option`, and its own bound options. -/
structure RunArgvInput where
  tokens : List String
  parameterOptions : List String
  options : List (String × OptValue)
deriving DecidableEq, Repr

/-- `run_input.add_parameter_option(name)`. -/
def add_parameter_option (ri : RunArgvInput) (n : String) : RunArgvInput :=
  { ri with parameterOptions := ri.parameterOptions ++ [n] }

/-- `input.set_option(name, value)`: Python dict assignment on the bound
options — replace the value of an existing key in place, append a new
key at the end. -/
def setOption : List (String × OptValue) → String → OptValue → List (String × OptValue)
  | [], n, v => [(n, v)]
  | p :: rest, n, v => if p.1 = n then (n, v) :: rest else p :: setOption rest n v

/-- Dict lookup on bound options: the value stored under the first (and,
with unique keys, only) occurrence of the key. -/
def getOption : List (String × OptValue) → String → Option OptValue
  | [], _ => none
  | p :: rest, n => if p.1 = n then some p.2 else getOption rest n

/-- The inner shortcut loop of the first rewrite loop: inject every
split shortcut (dash-stripped, with a single dash prepended) into the
recognized-parameter allowlist. -/
def addShortcutParams (ri : RunArgvInput) (shortcuts : List String) : RunArgvInput :=
  shortcuts.foldl (fun ri s => add_parameter_option ri ("-" ++ lstripDash s)) ri

/-- The body of the first loop of `Application._configure_io` for one
`(option_name, value)` item: when the value is truthy, look the option
up in the definition, inject its long form and each of its split
shortcut characters into the recognized-parameter allowlist. -/
def runParamStep (d : Defn) (ri : RunArgvInput) (p : String × OptValue) : RunArgvInput :=
  if p.2.truthy then
    match findOption d p.1 with
    | some o =>
      let ri1 := add_parameter_option ri ("--" ++ o.name)
      match o.shortcut with
      | some sc =>
        if sc.isEmpty then ri1
        else addShortcutParams ri1 ((splitShortcut sc).filter (fun s => !s.isEmpty))
      | none => ri1
    | none => ri
  else ri

/-- The second rewrite loop of `Application._configure_io`: re-set on
the rewritten input the value of every originally supplied (truthy)
application-level option. -/
def setSuppliedOptions (opts : List (String × OptValue))
    (os : List (String × OptValue)) : List (String × OptValue) :=
  opts.foldl (fun os p => if p.2.truthy then setOption os p.1 p.2 else os) os

/-- The result of `Application._configure_io`: either the input is left
in place, or it is replaced by the rewritten pass-through view. -/
inductive ConfiguredInput
  | plain (i : ArgvInput)
  | run (r : RunArgvInput)
deriving Repr

/-- `Application._configure_io`.  The cleo collaborators are explicit
parameters: `firstArgument` is `ArgvInput.first_argument` (the first
positional token of a token list) and `bindOptions` is the permissive
re-bind of step 4, producing whatever bound options cleo's parser
extracts from the given tokens under the given definition and
recognized-parameter allowlist.  The original input is taken already
bound (the first `with suppress(CleoError): io.input.bind(definition)`
of the source). -/
def configure_io
    (firstArgument : List String → Option String)
    (bindOptions : Defn → List String → List String → List (String × OptValue))
    (appName : Option String)
    (definition : Defn)
    (input : ArgvInput) : ConfiguredInput :=
  if firstArgument input.tokens = some "run" then
    let run0 : RunArgvInput :=
      { tokens := appName.getD "" :: input.tokens, parameterOptions := [], options := [] }
    let run1 := input.options.foldl (runParamStep definition) run0
    let run2 := { run1 with options := bindOptions definition run1.tokens run1.parameterOptions }
    let run3 := { run2 with options := setSuppliedOptions input.options run2.options }
    .run run3
  else .plain input

/-- Failures that can escape the base `cleo` run: the command-not-found
error the source traps, and any other cleo error. -/
inductive RunErr
  | commandNotFound
  | cleoError
deriving DecidableEq, Repr

/-- The mutable application/process state `Application._run` acts on.
`cwd` is the process working directory (an operating-system resource),
the five fields after it are the attributes set in `__init__`,
`registry` is the set of registered command names, `activated` the
plugins activated so far, and `errorOutput` the lines written to the
error channel. -/
structure AppState where
  cwd : String
  disable_plugins : Bool
  disable_cache : Bool
  plugins_loaded : Bool
  working_directory : String
  project_directory : Option String
  registry : List String
  activated : List String
  errorOutput : List String
deriving DecidableEq, Repr

/-- The `COMMANDS` table of built-in command names. -/
def COMMANDS : List String :=
  ["about", "add", "build", "check", "config", "init", "install", "lock", "new",
   "publish", "remove", "run", "search", "show", "sync", "update", "version",
   "cache clear", "cache list",
   "debug info", "debug resolve",
   "env activate", "env info", "env list", "env remove", "env use",
   "self add", "self install", "self lock", "self remove", "self update",
   "self show", "self show plugins", "self sync",
   "source add", "source remove", "source show"]

def COMMAND_NOT_FOUND_PREFIX_MESSAGE : String :=
  "Looks like you\x27re trying to use a Poetry command that is not available."

/-- The static override table `COMMAND_NOT_FOUND_MESSAGES`, as the
lookup function `dict.get`: only the key `"shell"` is present. -/
def COMMAND_NOT_FOUND_MESSAGES (n : String) : Option String :=
  if n = "shell" then
    some ("\nSince <info>Poetry (<b>2.0.0</>)</>, the <c1>shell</> command is not installed by default. You can use,\n\n  - the new <c1>env activate</> command (<b>recommended</>); or\n  - the <c1>shell plugin</> to install the <c1>shell</> command\n\n<b>Documentation:</> https://python-poetry.org/docs/managing-environments/#activating-the-environment\n\n<warning>Note that the <c1>env activate</> command is not a direct replacement for <c1>shell</> command.\n")
  else none

/-- `Application._configure_custom_application_options`: extract
`--no-plugins` and `--no-cache` (flag present → `True`, otherwise the
current attribute value is kept as the default), set the working
directory from `--directory` (default: the current process directory)
and the project directory from `--project` (default: `None`).  Path
validity (`ensure_path`) is assumed; the inputs stand for already
validated directories. -/
def configure_custom_application_options
    (noPluginsFlag noCacheFlag : Bool) (directoryOpt projectOpt : Option String)
    (st : AppState) : AppState :=
  { st with
    disable_plugins := st.disable_plugins || noPluginsFlag,
    disable_cache := st.disable_cache || noCacheFlag,
    working_directory := directoryOpt.getD st.cwd,
    project_directory := projectOpt }

/-- `Application._load_plugins`: a no-op when plugins were already
loaded; otherwise re-read `--no-plugins` from the input, and unless
disabled discover and activate the available plugins — activation lets
each plugin register its commands.  `plugins` is the discovery result of
the external plugin manager: each plugin identifier with the command
names its activation registers. -/
def load_plugins (noPluginsFlag : Bool) (plugins : List (String × List String))
    (st : AppState) : AppState :=
  if st.plugins_loaded then st
  else
    let st1 := { st with disable_plugins := noPluginsFlag }
    let st2 :=
      if st1.disable_plugins then st1
      else
        { st1 with
          activated := st1.activated ++ plugins.map Prod.fst,
          registry := st1.registry ++ plugins.foldr (fun p acc => p.2 ++ acc) [] }
    { st2 with plugins_loaded := true }

/-- The base `cleo` run (`super()._run`): resolve the requested command
name against the registry — an unregistered name raises
`CleoCommandNotFoundError` — and on success delegate to the command
body; with no command name cleo falls back to the default list/help
command. -/
def base_run (registry : List String) (commandName : Option String)
    (body : AppState → Except RunErr Int × AppState)
    (st : AppState) : Except RunErr Int × AppState :=
  match commandName with
  | none => (.ok 0, st)
  | some n => if n ∈ registry then body st else (.error .commandNotFound, st)

/-- Modelled from the spec: the helper `poetry.utils.helpers.directory`
used by `Application._run` is not among the excerpted sources.  Per the
spec it is a scoped acquisition/release of the process working
directory: change it to `dir` for the duration of `body` and
unconditionally restore the previous value afterwards, also when the
body fails. -/
def directoryScope (dir : String) (body : AppState → Except RunErr Int × AppState)
    (st : AppState) : Except RunErr Int × AppState :=
  let old := st.cwd
  let res := body { st with cwd := dir }
  (res.1, { res.2 with cwd := old })

/-- The `except CleoCommandNotFoundError` handler of `Application._run`:
when the requested command name has an entry in the override table,
write a blank line, the fixed prefix message and the tailored message to
the error channel and return exit code 1; otherwise re-raise. -/
def handle_command_not_found (commandName : Option String)
    (r : Except RunErr Int) (st : AppState) : Except RunErr Int × AppState :=
  match r with
  | .error .commandNotFound =>
    match commandName with
    | some cmd =>
      match COMMAND_NOT_FOUND_MESSAGES cmd with
      | some message =>
        (.ok 1,
         { st with errorOutput :=
             st.errorOutput ++ ["", COMMAND_NOT_FOUND_PREFIX_MESSAGE, message] })
      | none => (.error .commandNotFound, st)
    | none => (.error .commandNotFound, st)
  | r => (r, st)

/-- The run-relevant inputs of one invocation, abstracting the cleo
input and the external collaborators: the extracted global flags, the
plugin discovery result, the requested command name
(`Application._get_command_name`) and the resolved command's execution
body. -/
structure RunParams where
  noPluginsFlag : Bool
  noCacheFlag : Bool
  directoryOpt : Option String
  projectOpt : Option String
  plugins : List (String × List String)
  commandName : Option String
  body : AppState → Except RunErr Int × AppState

/-- The phases of `Application._run`, in the order the code performs
them; each trace entry records the process working directory in effect
when the phase completes. -/
inductive Phase
  | optionsConfigured
  | pluginsLoaded
  | directoryEntered
  | directoryRestored
deriving DecidableEq, Repr

/-- `Application._run`: configure the custom application options, load
plugins, then — inside the scoped working directory — run the base
application run with the command-not-found handler.  Besides the
outcome and final state it returns the phase trace. -/
def run (p : RunParams) (st : AppState) :
    Except RunErr Int × AppState × List (Phase × String) :=
  let st1 := configure_custom_application_options
    p.noPluginsFlag p.noCacheFlag p.directoryOpt p.projectOpt st
  let st2 := load_plugins p.noPluginsFlag p.plugins st1
  let res := directoryScope st2.working_directory
    (fun stIn =>
      let r1 := base_run stIn.registry p.commandName p.body stIn
      handle_command_not_found p.commandName r1.1 r1.2) st2
  (res.1, res.2,
   [(Phase.optionsConfigured, st1.cwd), (Phase.pluginsLoaded, st2.cwd),
    (Phase.directoryEntered, st2.working_directory),
    (Phase.directoryRestored, res.2.cwd)])

/-- The memoization state of the `poetry` property: the cached instance
(`self._poetry`) and a fresh-identifier supply standing for the external
factory — `created` counts the `Factory().create_poetry` invocations so
far, and each invocation returns a previously unused identifier. -/
structure PoetryCache where
  cached : Option Nat
  created : Nat
deriving DecidableEq, Repr

/-- The `poetry` property: return the cached instance when present,
otherwise invoke the factory once and cache its result. -/
def poetryProp (st : PoetryCache) : Nat × PoetryCache :=
  match st.cached with
  | some p => (p, st)
  | none => (st.created, { cached := some st.created, created := st.created + 1 })

/-- `Application.reset_poetry`: clear the cache. -/
def reset_poetry (st : PoetryCache) : PoetryCache :=
  { st with cached := none }

/-- Well-formedness of the memoization state: a cached instance was
produced by an earlier factory invocation. -/
def PoetryCache.WF (st : PoetryCache) : Prop :=
  ∀ p, st.cached = some p → p < st.created

/-- The state of a resolved command a before-run listener acts on: its
class membership tests and its two bound-state fields `_env` and
`_installer` (environment and installer handles as opaque
identifiers). -/
structure Cmd where
  isEnvCommand : Bool
  isSelfCommand : Bool
  isInstallerCommand : Bool
  env : Option Nat
  installer : Option Nat
deriving DecidableEq, Repr

/-- `Application.configure_env`: skip commands that are not
`EnvCommand`s or that are `SelfCommand`s, skip commands with an already
bound environment, otherwise bind the environment the external
`EnvManager` created (`createdEnv`). -/
def configure_env (createdEnv : Nat) (command : Cmd) : Cmd :=
  if !command.isEnvCommand || command.isSelfCommand then command
  else if command.env.isSome then command
  else { command with env := some createdEnv }

/-- `Application.configure_installer_for_event`: skip commands that are
not `InstallerCommand`s, skip commands with an already bound installer,
otherwise bind the freshly constructed installer (`newInstaller`). -/
def configure_installer_for_event (newInstaller : Nat) (command : Cmd) : Cmd :=
  if !command.isInstallerCommand then command
  else if command.installer.isSome then command
  else { command with installer := some newInstaller }

end Console

/-! ## Properties of the `_compat` helpers -/

namespace Compat

/-- Decoding one character from the front of a byte list that starts
with the UTF-8 encoding of a code point consumes exactly that encoding
and yields back the code point. -/
theorem utf8Step_encodeChar (c : Nat) (e rest : List Nat)
    (h : utf8EncodeChar c = some e) :
    utf8Step (e ++ rest) = some (c, rest) := by
  unfold utf8EncodeChar at h
  by_cases h1 : c < 0x80
  · rw [if_pos h1] at h
    injection h with h
    subst h
    show utf8Step (c :: rest) = some (c, rest)
    simp only [utf8Step]
    rw [if_pos h1]
  · rw [if_neg h1] at h
    by_cases h2 : c < 0x800
    · rw [if_pos h2] at h
      injection h with h
      subst h
      show utf8Step ((0xC0 + c / 64) :: (0x80 + c % 64) :: rest) = some (c, rest)
      simp only [utf8Step, List.head?_cons, List.tail_cons]
      rw [if_neg (by omega),
        if_pos (show (0xC2:Nat) ≤ 0xC0 + c / 64 ∧ 0xC0 + c / 64 < 0xE0 by omega),
        if_pos (show IsCont (0x80 + c % 64) from ⟨by omega, by omega⟩)]
      have hv : (0xC0 + c / 64 - 0xC0) * 64 + (0x80 + c % 64 - 0x80) = c := by omega
      rw [hv]
    · rw [if_neg h2] at h
      by_cases h3 : c < 0x10000
      · rw [if_pos h3] at h
        by_cases hs : Surrogate c
        · rw [if_pos hs] at h
          exact absurd h (by simp)
        · rw [if_neg hs] at h
          injection h with h
          subst h
          show utf8Step
              ((0xE0 + c / 4096) :: (0x80 + c / 64 % 64) :: (0x80 + c % 64) :: rest)
            = some (c, rest)
          simp only [utf8Step, List.head?_cons, List.tail_cons]
          rw [if_neg (by omega),
            if_neg (show ¬ ((0xC2:Nat) ≤ 0xE0 + c / 4096 ∧ 0xE0 + c / 4096 < 0xE0) by omega),
            if_pos (show (0xE0:Nat) ≤ 0xE0 + c / 4096 ∧ 0xE0 + c / 4096 < 0xF0 by omega),
            if_pos]
          · have hv : (0xE0 + c / 4096 - 0xE0) * 4096 + (0x80 + c / 64 % 64 - 0x80) * 64
                + (0x80 + c % 64 - 0x80) = c := by omega
            rw [hv]
          · refine ⟨⟨by omega, by omega⟩, ⟨by omega, by omega⟩, by omega, ?_⟩
            have hv : (0xE0 + c / 4096 - 0xE0) * 4096 + (0x80 + c / 64 % 64 - 0x80) * 64
                + (0x80 + c % 64 - 0x80) = c := by omega
            rw [hv]
            exact hs
      · rw [if_neg h3] at h
        by_cases h4 : c < 0x110000
        · rw [if_pos h4] at h
          injection h with h
          subst h
          show utf8Step
              ((0xF0 + c / 262144) :: (0x80 + c / 4096 % 64) :: (0x80 + c / 64 % 64)
                :: (0x80 + c % 64) :: rest)
            = some (c, rest)
          simp only [utf8Step, List.head?_cons, List.tail_cons]
          rw [if_neg (by omega),
            if_neg (show ¬ ((0xC2:Nat) ≤ 0xF0 + c / 262144 ∧ 0xF0 + c / 262144 < 0xE0) by omega),
            if_neg (show ¬ ((0xE0:Nat) ≤ 0xF0 + c / 262144 ∧ 0xF0 + c / 262144 < 0xF0) by omega),
            if_pos (show (0xF0:Nat) ≤ 0xF0 + c / 262144 ∧ 0xF0 + c / 262144 < 0xF5 by omega),
            if_pos]
          · have hv : (0xF0 + c / 262144 - 0xF0) * 262144 + (0x80 + c / 4096 % 64 - 0x80) * 4096
                + (0x80 + c / 64 % 64 - 0x80) * 64 + (0x80 + c % 64 - 0x80) = c := by omega
            rw [hv]
          · exact ⟨⟨by omega, by omega⟩, ⟨by omega, by omega⟩, ⟨by omega, by omega⟩,
              by omega, by omega⟩
        · rw [if_neg h4] at h
          exact absurd h (by simp)

/-- The UTF-8 encoding of a code point is never empty. -/
theorem utf8EncodeChar_ne_nil (c : Nat) (e : List Nat)
    (h : utf8EncodeChar c = some e) : e ≠ [] := by
  unfold utf8EncodeChar at h
  split_ifs at h <;> (injection h with h; subst h; simp)

/-- Worker round trip: with sufficient fuel, decoding the encoding of a
string yields back the string. -/
theorem utf8DecodeAux_encode (s : Str) : ∀ (fuel : Nat) (b : Bytes),
    utf8Encode s = some b → b.length ≤ fuel → utf8DecodeAux fuel b = some s := by
  induction s with
  | nil =>
    intro fuel b h hf
    simp only [utf8Encode] at h
    injection h with h
    subst h
    cases fuel <;> rfl
  | cons c cs ih =>
    intro fuel b h hf
    simp only [utf8Encode] at h
    cases he : utf8EncodeChar c with
    | none => rw [he] at h; exact absurd h (by simp)
    | some e =>
      cases hr : utf8Encode cs with
      | none => rw [he, hr] at h; exact absurd h (by simp)
      | some r =>
        rw [he, hr] at h
        injection h with h
        subst h
        cases e with
        | nil => exact absurd rfl (utf8EncodeChar_ne_nil c [] he)
        | cons x xs =>
          cases fuel with
          | zero => simp at hf
          | succ fuel =>
            have hrlen : r.length ≤ fuel := by
              simp [List.length_append] at hf
              omega
            show utf8DecodeAux (fuel + 1) (x :: (xs ++ r)) = some (c :: cs)
            simp only [utf8DecodeAux]
            have hstep := utf8Step_encodeChar c (x :: xs) r he
            rw [List.cons_append] at hstep
            rw [hstep]
            show (utf8DecodeAux fuel r).map (c :: ·) = some (c :: cs)
            rw [ih fuel r hr hrlen]
            rfl

/-- UTF-8 round trip: strict decoding inverts strict encoding. -/
theorem utf8Decode_utf8Encode (s : Str) (b : Bytes) (h : utf8Encode s = some b) :
    utf8Decode b = some s :=
  utf8DecodeAux_encode s b.length b h (Nat.le_refl _)

/-- The codec loop returns `none` exactly when every listed codec
fails. -/
theorem tryDecode_eq_none (es : List Encoding) (b : Bytes)
    (h : ∀ e ∈ es, codecDecode e b = none) : tryDecode es b = none := by
  induction es with
  | nil => rfl
  | cons e es ih =>
    simp only [tryDecode]
    rw [h e (by simp)]
    exact ih (fun e2 he2 => h e2 (by simp [he2]))

end Compat

/-- C9: the decode and encode helpers are total — both are total
functions by construction (every codec failure is suppressed and the
final fallback decodes/encodes ignoring errors, so no input raises).
Moreover: a `str` input to `decode` is returned unchanged; when every
listed codec fails on a `bytes` input, `decode` falls back to decoding
with the first listed encoding while ignoring errors; and a `bytes`
input to `encode` is returned unchanged. -/
theorem Compat.decode_encode_total :
    (∀ (s : Compat.Str) (encodings : Option (List Compat.Encoding)),
      Compat.decode (.str s) encodings = s)
    ∧ (∀ (b : Compat.Bytes) (encodings : Option (List Compat.Encoding)),
        (∀ e ∈ Compat.normEncodings encodings, Compat.codecDecode e b = none) →
        Compat.decode (.bytes b) encodings
          = Compat.codecDecodeIgnore ((Compat.normEncodings encodings).headD .utf8) b)
    ∧ (∀ (b : Compat.Bytes) (encodings : Option (List Compat.Encoding)),
        Compat.encode (.bytes b) encodings = b) := by
  refine ⟨fun s encodings => rfl, fun b encodings h => ?_, fun b encodings => rfl⟩
  simp only [Compat.decode]
  rw [Compat.tryDecode_eq_none _ _ h]

/-- Witness for C9 at concrete inputs: a `str` input comes back
unchanged, a `bytes` input on which the single listed codec (ascii)
fails is decoded by the ascii-with-ignore fallback, and a `bytes` input
to `encode` comes back unchanged. -/
theorem Compat.decode_encode_total_witness :
    Compat.decode (.str [104, 105]) none = [104, 105]
    ∧ Compat.decode (.bytes [200]) (some [.ascii])
        = Compat.codecDecodeIgnore ((Compat.normEncodings (some [.ascii])).headD .utf8) [200]
    ∧ Compat.encode (.bytes [255]) none = [255] :=
  ⟨Compat.decode_encode_total.1 [104, 105] none,
   Compat.decode_encode_total.2.1 [200] (some [.ascii]) (by decide),
   Compat.decode_encode_total.2.2 [255] none⟩

/-- C10: for every string that is UTF-8 encodable, decoding the encoding
with the default encoding lists is the identity — the first-tried codec
of `encode` (UTF-8) succeeds, and the first-tried codec of `decode`
(UTF-8) inverts it. -/
theorem Compat.decode_encode_roundtrip (s : Compat.Str)
    (h : (Compat.utf8Encode s).isSome) :
    Compat.decode (.bytes (Compat.encode (.str s) none)) none = s := by
  obtain ⟨b, hb⟩ := Option.isSome_iff_exists.mp h
  have he : Compat.encode (.str s) none = b := by
    simp only [Compat.encode, Compat.normEncodings, Compat.defaultEncodings,
      Compat.tryEncode, Compat.codecEncode]
    rw [hb]
  rw [he]
  have hd : Compat.utf8Decode b = some s := Compat.utf8Decode_utf8Encode s b hb
  simp only [Compat.decode, Compat.normEncodings, Compat.defaultEncodings,
    Compat.tryDecode, Compat.codecDecode]
  rw [hd]

/-- Witness for C10 at a concrete string containing a 1-, 2-, 3- and
4-byte character. -/
theorem Compat.decode_encode_roundtrip_witness :
    (Compat.utf8Encode [104, 233, 8364, 128512]).isSome = true
    ∧ Compat.decode (.bytes (Compat.encode (.str [104, 233, 8364, 128512]) none)) none
        = [104, 233, 8364, 128512] :=
  ⟨by decide, Compat.decode_encode_roundtrip [104, 233, 8364, 128512] (by decide)⟩

/-! ## Properties of the console application -/

namespace Console

/-- Effect of a dict assignment on a dict lookup. -/
theorem getOption_setOption (os : List (String × OptValue)) :
    ∀ (m n : String) (v : OptValue),
      getOption (setOption os m v) n = if n = m then some v else getOption os n := by
  induction os with
  | nil =>
    intro m n v
    by_cases h : n = m
    · subst h
      simp [setOption, getOption]
    · rw [if_neg h]
      simp only [setOption, getOption]
      rw [if_neg (fun hc => h hc.symm)]
  | cons p rest ih =>
    intro m n v
    by_cases hp : p.1 = m
    · simp only [setOption, if_pos hp]
      by_cases h : n = m
      · subst h
        simp [getOption]
      · rw [if_neg h]
        simp only [getOption]
        rw [if_neg (fun hc => h hc.symm), if_neg (fun hc : p.1 = n => h (hc ▸ hp.symm ▸ rfl))]
    · simp only [setOption, if_neg hp]
      by_cases h : n = p.1
      · have hnm : n ≠ m := fun hc => hp (h.symm.trans hc)
        simp only [getOption, if_pos h.symm, if_neg hnm]
      · simp only [getOption, if_neg (fun hc : p.1 = n => h hc.symm)]
        exact ih m n v

/-- Re-setting the supplied options does not touch keys that are not
supplied. -/
theorem getOption_setSuppliedOptions_not_mem (opts : List (String × OptValue)) :
    ∀ (os : List (String × OptValue)) (n : String), n ∉ opts.map Prod.fst →
      getOption (setSuppliedOptions opts os) n = getOption os n := by
  induction opts with
  | nil => intro os n _; rfl
  | cons q rest ih =>
    intro os n h
    simp only [List.map_cons, List.mem_cons] at h
    push_neg at h
    have step : getOption (if q.2.truthy then setOption os q.1 q.2 else os) n
        = getOption os n := by
      by_cases ht : q.2.truthy
      · rw [if_pos ht, getOption_setOption, if_neg h.1]
      · rw [if_neg ht]
    exact (ih _ n h.2).trans step

/-- After the second rewrite loop, every supplied (truthy) option reads
back its originally supplied value, whatever the loop started from. -/
theorem getOption_setSuppliedOptions (opts : List (String × OptValue)) :
    ∀ (os : List (String × OptValue)) (n : String) (v : OptValue),
      (opts.map Prod.fst).Nodup → (n, v) ∈ opts → v.truthy = true →
      getOption (setSuppliedOptions opts os) n = some v := by
  induction opts with
  | nil => intro os n v _ h; cases h
  | cons q rest ih =>
    intro os n v hnd hmem ht
    rcases List.mem_cons.mp hmem with heq | hrest
    · subst heq
      have hn : n ∉ rest.map Prod.fst := by
        have := (List.nodup_cons.mp hnd).1
        simpa using this
      have hgo := getOption_setSuppliedOptions_not_mem rest
        (if ((n, v)).2.truthy then setOption os ((n, v)).1 ((n, v)).2 else os) n hn
      refine hgo.trans ?_
      simp only [ht, if_pos]
      rw [getOption_setOption, if_pos rfl]
    · exact ih _ n v (List.nodup_cons.mp hnd).2 hrest ht

/-- The first rewrite loop never changes the token list. -/
theorem addShortcutParams_tokens (l : List String) :
    ∀ ri : RunArgvInput, (addShortcutParams ri l).tokens = ri.tokens := by
  induction l with
  | nil => intro ri; rfl
  | cons s l ih => intro ri; exact ih (add_parameter_option ri ("-" ++ lstripDash s))

theorem runParamStep_tokens (d : Defn) (ri : RunArgvInput) (p : String × OptValue) :
    (runParamStep d ri p).tokens = ri.tokens := by
  unfold runParamStep
  repeat' split
  all_goals first
    | rfl
    | exact addShortcutParams_tokens _ _

theorem foldl_runParamStep_tokens (d : Defn) (opts : List (String × OptValue)) :
    ∀ ri : RunArgvInput, (opts.foldl (runParamStep d) ri).tokens = ri.tokens := by
  induction opts with
  | nil => intro ri; rfl
  | cons q rest ih =>
    intro ri
    exact (ih (runParamStep d ri q)).trans (runParamStep_tokens d ri q)

end Console

namespace Console

/-- The shortcut loop only appends to the recognized parameters. -/
theorem mem_addShortcutParams_self (l : List String) :
    ∀ (ri : RunArgvInput) (x : String), x ∈ ri.parameterOptions →
      x ∈ (addShortcutParams ri l).parameterOptions := by
  induction l with
  | nil => intro ri x h; exact h
  | cons s l ih =>
    intro ri x h
    exact ih (add_parameter_option ri ("-" ++ lstripDash s)) x (List.mem_append.mpr (Or.inl h))

/-- The shortcut loop injects every listed shortcut. -/
theorem mem_addShortcutParams (l : List String) :
    ∀ (ri : RunArgvInput) (s : String), s ∈ l →
      ("-" ++ lstripDash s) ∈ (addShortcutParams ri l).parameterOptions := by
  induction l with
  | nil => intro ri s h; cases h
  | cons t l ih =>
    intro ri s h
    rcases List.mem_cons.mp h with heq | hmem
    · subst heq
      exact mem_addShortcutParams_self l _ _ (List.mem_append.mpr (Or.inr (by simp)))
    · exact ih _ s hmem

/-- One step of the first rewrite loop only appends to the recognized
parameters. -/
theorem mem_runParamStep_self (d : Defn) (ri : RunArgvInput) (p : String × OptValue)
    (x : String) (h : x ∈ ri.parameterOptions) :
    x ∈ (runParamStep d ri p).parameterOptions := by
  unfold runParamStep
  repeat' split
  all_goals first
    | exact h
    | exact List.mem_append.mpr (Or.inl h)
    | exact mem_addShortcutParams_self _ _ _ (List.mem_append.mpr (Or.inl h))

/-- The whole first rewrite loop only appends to the recognized
parameters. -/
theorem mem_foldl_runParamStep_self (d : Defn) (opts : List (String × OptValue)) :
    ∀ (ri : RunArgvInput) (x : String), x ∈ ri.parameterOptions →
      x ∈ (opts.foldl (runParamStep d) ri).parameterOptions := by
  induction opts with
  | nil => intro ri x h; exact h
  | cons q rest ih =>
    intro ri x h
    exact ih (runParamStep d ri q) x (mem_runParamStep_self d ri q x h)

/-- One step of the first rewrite loop for a supplied truthy option
injects the option's long form and each of its split shortcuts. -/
theorem runParamStep_adds (d : Defn) (ri : RunArgvInput) (n : String) (v : OptValue)
    (o : Opt) (ht : v.truthy = true) (hf : findOption d n = some o) :
    ("--" ++ o.name) ∈ (runParamStep d ri (n, v)).parameterOptions
    ∧ ∀ sc, o.shortcut = some sc → sc.isEmpty = false →
        ∀ s ∈ (splitShortcut sc).filter (fun x => !x.isEmpty),
          ("-" ++ lstripDash s) ∈ (runParamStep d ri (n, v)).parameterOptions := by
  cases hsc : o.shortcut with
  | none =>
    have hstep : runParamStep d ri (n, v) = add_parameter_option ri ("--" ++ o.name) := by
      simp [runParamStep, hf, ht, hsc]
    rw [hstep]
    refine ⟨by simp [add_parameter_option], ?_⟩
    intro sc hsc2 _ _ _
    cases hsc2
  | some sc0 =>
    by_cases he : sc0.isEmpty
    · have hstep : runParamStep d ri (n, v) = add_parameter_option ri ("--" ++ o.name) := by
        simp [runParamStep, hf, ht, hsc, he]
      rw [hstep]
      refine ⟨by simp [add_parameter_option], ?_⟩
      intro sc hsc2 hne s _
      injection hsc2 with hsc2
      subst hsc2
      rw [he] at hne
      cases hne
    · have hstep : runParamStep d ri (n, v)
          = addShortcutParams (add_parameter_option ri ("--" ++ o.name))
              ((splitShortcut sc0).filter (fun x => !x.isEmpty)) := by
        simp [runParamStep, hf, ht, hsc, he]
      rw [hstep]
      constructor
      · exact mem_addShortcutParams_self _ _ _ (by simp [add_parameter_option])
      · intro sc hsc2 _ s hs
        injection hsc2 with hsc2
        subst hsc2
        exact mem_addShortcutParams _ _ s hs

/-- Over the whole first rewrite loop: every supplied truthy option that
the definition knows injects its long form and split shortcuts. -/
theorem foldl_runParamStep_adds (d : Defn) (opts : List (String × OptValue)) :
    ∀ (ri : RunArgvInput) (n : String) (v : OptValue) (o : Opt),
      (n, v) ∈ opts → v.truthy = true → findOption d n = some o →
      ("--" ++ o.name) ∈ (opts.foldl (runParamStep d) ri).parameterOptions
      ∧ ∀ sc, o.shortcut = some sc → sc.isEmpty = false →
          ∀ s ∈ (splitShortcut sc).filter (fun x => !x.isEmpty),
            ("-" ++ lstripDash s) ∈ (opts.foldl (runParamStep d) ri).parameterOptions := by
  induction opts with
  | nil => intro ri n v o h; cases h
  | cons q rest ih =>
    intro ri n v o hmem ht hf
    rcases List.mem_cons.mp hmem with heq | hrest
    · subst heq
      have hstep := runParamStep_adds d ri n v o ht hf
      constructor
      · exact mem_foldl_runParamStep_self d rest _ _ hstep.1
      · intro sc hsc hne s hs
        exact mem_foldl_runParamStep_self d rest _ _ (hstep.2 sc hsc hne s hs)
    · exact ih (runParamStep d ri q) n v o hrest ht hf

end Console

/-- C1: when the first positional argument is "run", `_configure_io`
replaces the active input by a rewritten view whose leading token is the
application name followed by the original raw tokens, and — after the
permissive re-bind against the full definition (`bindOptions`, arbitrary
here) — explicitly re-sets the value of every application-level option
that was supplied with a truthy value in the original binding, so each
such option reads back its original value whatever the re-bind
produced. -/
theorem Console.configure_io_run_rewrite
    (firstArgument : List String → Option String)
    (bindOptions : Console.Defn → List String → List String → List (String × Console.OptValue))
    (appName : Option String) (definition : Console.Defn) (input : Console.ArgvInput)
    (hrun : firstArgument input.tokens = some "run")
    (hnodup : (input.options.map Prod.fst).Nodup) :
    ∃ r, Console.configure_io firstArgument bindOptions appName definition input = .run r
      ∧ r.tokens = appName.getD "" :: input.tokens
      ∧ ∀ n v, (n, v) ∈ input.options → v.truthy = true →
          Console.getOption r.options n = some v := by
  unfold Console.configure_io
  rw [if_pos hrun]
  refine ⟨_, rfl, ?_, ?_⟩
  · exact Console.foldl_runParamStep_tokens definition input.options
      { tokens := appName.getD "" :: input.tokens, parameterOptions := [], options := [] }
  · intro n v hmem ht
    exact Console.getOption_setSuppliedOptions input.options _ n v hnodup hmem ht

/-- Witness for C1: `poetry run echo` with a truthy `--no-cache` in the
original binding and a re-bind producing nothing. -/
theorem Console.configure_io_run_rewrite_witness :
    ∃ r, Console.configure_io List.head? (fun _ _ _ => []) (some "poetry")
          [⟨"no-cache", none⟩]
          { tokens := ["run", "echo"], options := [("no-cache", .bool true)] } = .run r
      ∧ r.tokens = (some "poetry").getD "" :: ["run", "echo"]
      ∧ ∀ n v, (n, v) ∈ [("no-cache", Console.OptValue.bool true)] → v.truthy = true →
          Console.getOption r.options n = some v :=
  Console.configure_io_run_rewrite List.head? (fun _ _ _ => []) (some "poetry")
    [⟨"no-cache", none⟩]
    { tokens := ["run", "echo"], options := [("no-cache", .bool true)] }
    rfl (by decide)

/-- C6: during the run rewrite, a supplied truthy option whose declared
shortcut string is `"-x|-y"` injects both `-x` and `-y` into the
rewritten input's recognized-parameter allowlist; and in general a
shortcut string of single-character shortcuts joined by separators is
split into those independent single-character shortcuts. -/
theorem Console.configure_io_shortcut_split
    (firstArgument : List String → Option String)
    (bindOptions : Console.Defn → List String → List String → List (String × Console.OptValue))
    (appName : Option String) (definition : Console.Defn) (input : Console.ArgvInput)
    (n : String) (v : Console.OptValue) (o : Console.Opt)
    (hrun : firstArgument input.tokens = some "run")
    (hf : Console.findOption definition n = some o)
    (hsc : o.shortcut = some "-x|-y")
    (hmem : (n, v) ∈ input.options) (ht : v.truthy = true) :
    (∃ r, Console.configure_io firstArgument bindOptions appName definition input = .run r
       ∧ "-x" ∈ r.parameterOptions ∧ "-y" ∈ r.parameterOptions)
    ∧ (∀ a b : Char, a ≠ '|' → a ≠ '-' → b ≠ '|' → b ≠ '-' →
        Console.splitShortcut (String.mk ['-', a, '|', '-', b])
          = [String.mk [a], String.mk [b]]) := by
  constructor
  · unfold Console.configure_io
    rw [if_pos hrun]
    have h := Console.foldl_runParamStep_adds definition input.options
      { tokens := appName.getD "" :: input.tokens, parameterOptions := [], options := [] }
      n v o hmem ht hf
    refine ⟨_, rfl, ?_, ?_⟩
    · have hx := h.2 "-x|-y" hsc (by decide) "x" (by decide)
      have he : ("-" ++ Console.lstripDash "x") = "-x" := by decide
      rw [he] at hx
      exact hx
    · have hy := h.2 "-x|-y" hsc (by decide) "y" (by decide)
      have he : ("-" ++ Console.lstripDash "y") = "-y" := by decide
      rw [he] at hy
      exact hy
  · intro a b ha1 ha2 hb1 hb2
    simp [Console.splitShortcut, Console.lstripDash, Console.splitGo, String.toList,
      ha1, ha2, hb1, hb2]

/-- Witness for C6: a definition with one option `foo` declaring
shortcut `"-x|-y"`, supplied truthy before the `run` token. -/
theorem Console.configure_io_shortcut_split_witness :
    (∃ r, Console.configure_io List.head? (fun _ _ _ => []) (some "poetry")
          [⟨"foo", some "-x|-y"⟩]
          { tokens := ["run"], options := [("foo", .bool true)] } = .run r
       ∧ "-x" ∈ r.parameterOptions ∧ "-y" ∈ r.parameterOptions)
    ∧ (∀ a b : Char, a ≠ '|' → a ≠ '-' → b ≠ '|' → b ≠ '-' →
        Console.splitShortcut (String.mk ['-', a, '|', '-', b])
          = [String.mk [a], String.mk [b]]) :=
  Console.configure_io_shortcut_split List.head? (fun _ _ _ => []) (some "poetry")
    [⟨"foo", some "-x|-y"⟩] { tokens := ["run"], options := [("foo", .bool true)] }
    "foo" (.bool true) ⟨"foo", some "-x|-y"⟩ rfl (by decide) rfl (by decide) rfl

namespace Console

/-- `_load_plugins` never touches the process working directory. -/
theorem load_plugins_cwd (f : Bool) (pl : List (String × List String)) (s : AppState) :
    (load_plugins f pl s).cwd = s.cwd := by
  unfold load_plugins
  split
  · rfl
  · dsimp only
    split <;> rfl

/-- `_load_plugins` never touches `self._working_directory`. -/
theorem load_plugins_working_directory (f : Bool) (pl : List (String × List String))
    (s : AppState) : (load_plugins f pl s).working_directory = s.working_directory := by
  unfold load_plugins
  split
  · rfl
  · dsimp only
    split <;> rfl

/-- `_load_plugins` writes nothing to the error channel. -/
theorem load_plugins_errorOutput (f : Bool) (pl : List (String × List String))
    (s : AppState) : (load_plugins f pl s).errorOutput = s.errorOutput := by
  unfold load_plugins
  split
  · rfl
  · dsimp only
    split <;> rfl

end Console

/-- C3: after any run — whether the command body completes normally or
raises, and whatever the body does to the working directory — the
process working directory equals its value before the run: the change
made for `--directory` is unconditionally restored. -/
theorem Console.run_restores_cwd (p : Console.RunParams) (st : Console.AppState) :
    (Console.run p st).2.1.cwd = st.cwd := by
  show (Console.load_plugins p.noPluginsFlag p.plugins
      (Console.configure_custom_application_options p.noPluginsFlag p.noCacheFlag
        p.directoryOpt p.projectOpt st)).cwd = st.cwd
  rw [Console.load_plugins_cwd]
  rfl

/-- Counterexample to C4 as stated: with the original working directory
`/orig` and `--directory /scoped`, the phase trace of the run shows the
plugins being loaded while the working directory is still `/orig`, and
the directory scope being entered only afterwards — the spec's
`DirectoryScoped → PluginsLoaded` order, and with it "plugins load with
the scoped working directory in effect", does not hold on the code. -/
theorem Console.run_phase_order_counterexample :
    (Console.run
      { noPluginsFlag := false, noCacheFlag := false, directoryOpt := some "/scoped",
        projectOpt := none, plugins := [("plugin1", ["extra"])], commandName := none,
        body := fun s => (.ok 0, s) }
      { cwd := "/orig", disable_plugins := false, disable_cache := false,
        plugins_loaded := false, working_directory := "/orig", project_directory := none,
        registry := Console.COMMANDS, activated := [], errorOutput := [] }).2.2
      = [(.optionsConfigured, "/orig"), (.pluginsLoaded, "/orig"),
         (.directoryEntered, "/scoped"), (.directoryRestored, "/orig")]
    ∧ ("/orig" : String) ≠ "/scoped" := by
  constructor
  · rfl
  · decide

/-- C4 amended: every run performs its phases in the fixed order
options-configured → plugins-loaded → directory-entered →
directory-restored; plugin discovery and activation happen before the
working directory is scoped, so plugins load with the original
(pre-scope) working directory in effect, the `--directory` value is in
effect from the directory-entered phase, and the original directory is
restored at the end. -/
theorem Console.run_phase_order (p : Console.RunParams) (st : Console.AppState) :
    (Console.run p st).2.2.map Prod.fst
      = [.optionsConfigured, .pluginsLoaded, .directoryEntered, .directoryRestored]
    ∧ (Console.run p st).2.2.map Prod.snd
      = [st.cwd, st.cwd,
         (Console.configure_custom_application_options p.noPluginsFlag p.noCacheFlag
           p.directoryOpt p.projectOpt st).working_directory, st.cwd] := by
  refine ⟨rfl, ?_⟩
  show [(Console.configure_custom_application_options p.noPluginsFlag p.noCacheFlag
           p.directoryOpt p.projectOpt st).cwd,
        (Console.load_plugins p.noPluginsFlag p.plugins
          (Console.configure_custom_application_options p.noPluginsFlag p.noCacheFlag
            p.directoryOpt p.projectOpt st)).cwd,
        (Console.load_plugins p.noPluginsFlag p.plugins
          (Console.configure_custom_application_options p.noPluginsFlag p.noCacheFlag
            p.directoryOpt p.projectOpt st)).working_directory,
        (Console.load_plugins p.noPluginsFlag p.plugins
          (Console.configure_custom_application_options p.noPluginsFlag p.noCacheFlag
            p.directoryOpt p.projectOpt st)).cwd]
      = _
  rw [Console.load_plugins_cwd, Console.load_plugins_working_directory]
  rfl

/-- C5: two accesses of the memoized `poetry` property without an
intervening reset return the identical instance and do not invoke the
factory again (the factory runs at most once across the two accesses);
after `reset_poetry`, the next access invokes the factory once more and
returns a new instance, distinct from the cached one. -/
theorem Console.poetry_memoized_reset (st : Console.PoetryCache) (hwf : st.WF) :
    (Console.poetryProp st).1 = (Console.poetryProp (Console.poetryProp st).2).1
    ∧ (Console.poetryProp (Console.poetryProp st).2).2 = (Console.poetryProp st).2
    ∧ (Console.poetryProp st).2.created ≤ st.created + 1
    ∧ (Console.poetryProp (Console.reset_poetry (Console.poetryProp st).2)).2.created
        = (Console.poetryProp st).2.created + 1
    ∧ (Console.poetryProp (Console.reset_poetry (Console.poetryProp st).2)).1
        ≠ (Console.poetryProp st).1 := by
  cases hc : st.cached with
  | some p =>
    have hp := hwf p hc
    simp only [Console.poetryProp, Console.reset_poetry, hc]
    refine ⟨by trivial, by trivial, by omega, by trivial, by omega⟩
  | none =>
    simp only [Console.poetryProp, Console.reset_poetry, hc]
    refine ⟨by trivial, by trivial, by omega, by trivial, by omega⟩

/-- Witness for C5 at the fresh cache state. -/
theorem Console.poetry_memoized_reset_witness :
    (Console.poetryProp (Console.reset_poetry (Console.poetryProp ⟨none, 0⟩).2)).1
      ≠ (Console.poetryProp ⟨none, 0⟩).1 :=
  (Console.poetry_memoized_reset ⟨none, 0⟩ (fun _ h => nomatch h)).2.2.2.2

/-- C7: plugin loading is idempotent — a second call to `_load_plugins`,
with whatever flag and discovery result, is a no-op — and with
`--no-plugins` set, no plugin is activated and the command registry is
left unchanged (so it still holds exactly the built-in names). -/
theorem Console.load_plugins_guard_disabled :
    (∀ (f f2 : Bool) (pl pl2 : List (String × List String)) (st : Console.AppState),
      Console.load_plugins f2 pl2 (Console.load_plugins f pl st)
        = Console.load_plugins f pl st)
    ∧ (∀ (pl : List (String × List String)) (st : Console.AppState),
        (Console.load_plugins true pl st).registry = st.registry
        ∧ (Console.load_plugins true pl st).activated = st.activated) := by
  constructor
  · intro f f2 pl pl2 st
    by_cases h : st.plugins_loaded
    · have hfix : ∀ (g : Bool) ql, Console.load_plugins g ql st = st := by
        intro g ql
        unfold Console.load_plugins
        rw [if_pos h]
      rw [hfix, hfix]
    · set A := Console.load_plugins f pl st with hA
      have hloaded : A.plugins_loaded = true := by
        rw [hA]
        unfold Console.load_plugins
        rw [if_neg h]
      unfold Console.load_plugins
      rw [if_pos hloaded]
  · intro pl st
    by_cases h : st.plugins_loaded
    · have h1 : Console.load_plugins true pl st = st := by
        unfold Console.load_plugins
        rw [if_pos h]
      rw [h1]
      exact ⟨rfl, rfl⟩
    · unfold Console.load_plugins
      rw [if_neg h]
      exact ⟨rfl, rfl⟩

/-- C8: each before-run listener no-ops when its target state is already
populated — `configure_env` leaves a command with a bound environment
unchanged, and `configure_installer_for_event` leaves a command with a
bound installer unchanged — so each bound-state field is populated at
most once. -/
theorem Console.configure_listeners_idempotent :
    (∀ (c : Console.Cmd) (e x : Nat), c.env = some e → Console.configure_env x c = c)
    ∧ (∀ (c : Console.Cmd) (i y : Nat), c.installer = some i →
        Console.configure_installer_for_event y c = c) := by
  constructor
  · intro c e x he
    unfold Console.configure_env
    split
    · rfl
    · rw [if_pos (by rw [he]; rfl)]
  · intro c i y hi
    unfold Console.configure_installer_for_event
    split
    · rfl
    · rw [if_pos (by rw [hi]; rfl)]

/-- Witness for C8: a command with an already bound environment and a
command with an already bound installer are left unchanged. -/
theorem Console.configure_listeners_idempotent_witness :
    Console.configure_env 7
      { isEnvCommand := true, isSelfCommand := false, isInstallerCommand := false,
        env := some 3, installer := none }
      = { isEnvCommand := true, isSelfCommand := false, isInstallerCommand := false,
          env := some 3, installer := none }
    ∧ Console.configure_installer_for_event 9
      { isEnvCommand := false, isSelfCommand := false, isInstallerCommand := true,
        env := none, installer := some 4 }
      = { isEnvCommand := false, isSelfCommand := false, isInstallerCommand := true,
          env := none, installer := some 4 } :=
  ⟨Console.configure_listeners_idempotent.1 _ 3 7 rfl,
   Console.configure_listeners_idempotent.2 _ 4 9 rfl⟩

namespace Console

/-- Resolution failure: an unregistered command name makes the base run
raise the command-not-found error. -/
theorem base_run_not_found (registry : List String) (n : String)
    (body : AppState → Except RunErr Int × AppState) (s : AppState)
    (hreg : n ∉ registry) :
    base_run registry (some n) body s = (.error .commandNotFound, s) := by
  show (if n ∈ registry then body s else (.error .commandNotFound, s))
    = (.error .commandNotFound, s)
  rw [if_neg hreg]

/-- The except-handler on a name present in the override table: exit
code 1 and the two messages written to the error channel. -/
theorem handle_command_not_found_hit (n m : String) (s : AppState)
    (hm : COMMAND_NOT_FOUND_MESSAGES n = some m) :
    handle_command_not_found (some n) (.error .commandNotFound) s
      = (.ok 1, { s with errorOutput :=
          s.errorOutput ++ ["", COMMAND_NOT_FOUND_PREFIX_MESSAGE, m] }) := by
  show (match COMMAND_NOT_FOUND_MESSAGES n with
        | some message => ((.ok 1 : Except RunErr Int),
            { s with errorOutput :=
                s.errorOutput ++ ["", COMMAND_NOT_FOUND_PREFIX_MESSAGE, message] })
        | none => (.error .commandNotFound, s))
      = (.ok 1, { s with errorOutput :=
          s.errorOutput ++ ["", COMMAND_NOT_FOUND_PREFIX_MESSAGE, m] })
  rw [hm]

/-- The except-handler on a name absent from the override table:
re-raise. -/
theorem handle_command_not_found_miss (n : String) (s : AppState)
    (hnone : COMMAND_NOT_FOUND_MESSAGES n = none) :
    handle_command_not_found (some n) (.error .commandNotFound) s
      = (.error .commandNotFound, s) := by
  show (match COMMAND_NOT_FOUND_MESSAGES n with
        | some message => ((.ok 1 : Except RunErr Int),
            { s with errorOutput :=
                s.errorOutput ++ ["", COMMAND_NOT_FOUND_PREFIX_MESSAGE, message] })
        | none => (.error .commandNotFound, s))
      = (.error .commandNotFound, s)
  rw [hnone]

end Console

/-- C2: a run whose requested command name is unregistered fails
resolution with the command-not-found error; if the name is in the
static override table the run instead returns exit code exactly 1 and
writes the blank line, the fixed prefix message and the tailored message
to the error channel; otherwise the command-not-found error is
re-raised. -/
theorem Console.run_command_not_found (p : Console.RunParams) (st : Console.AppState)
    (n : String) (hcmd : p.commandName = some n)
    (hreg : n ∉ (Console.load_plugins p.noPluginsFlag p.plugins
      (Console.configure_custom_application_options p.noPluginsFlag p.noCacheFlag
        p.directoryOpt p.projectOpt st)).registry) :
    (∀ m, Console.COMMAND_NOT_FOUND_MESSAGES n = some m →
        (Console.run p st).1 = .ok 1
        ∧ (Console.run p st).2.1.errorOutput
            = st.errorOutput ++ ["", Console.COMMAND_NOT_FOUND_PREFIX_MESSAGE, m])
    ∧ (Console.COMMAND_NOT_FOUND_MESSAGES n = none →
        (Console.run p st).1 = .error .commandNotFound) := by
  constructor
  · intro m hm
    simp only [Console.run, Console.directoryScope, hcmd]
    rw [Console.base_run_not_found _ _ _ _ hreg]
    rw [Console.handle_command_not_found_hit n m _ hm]
    refine ⟨rfl, ?_⟩
    show (Console.load_plugins p.noPluginsFlag p.plugins
        (Console.configure_custom_application_options p.noPluginsFlag p.noCacheFlag
          p.directoryOpt p.projectOpt st)).errorOutput
        ++ ["", Console.COMMAND_NOT_FOUND_PREFIX_MESSAGE, m]
      = st.errorOutput ++ ["", Console.COMMAND_NOT_FOUND_PREFIX_MESSAGE, m]
    rw [Console.load_plugins_errorOutput]
    rfl
  · intro hnone
    simp only [Console.run, Console.directoryScope, hcmd]
    rw [Console.base_run_not_found _ _ _ _ hreg]
    rw [Console.handle_command_not_found_miss n _ hnone]

/-- Witness for C2: requesting the removed `shell` command with the
built-in registry yields exit code 1 and the two messages on the error
channel. -/
theorem Console.run_command_not_found_witness :
    (Console.run
      { noPluginsFlag := true, noCacheFlag := false, directoryOpt := none,
        projectOpt := none, plugins := [], commandName := some "shell",
        body := fun s => (.ok 0, s) }
      { cwd := "/", disable_plugins := false, disable_cache := false,
        plugins_loaded := false, working_directory := "/", project_directory := none,
        registry := Console.COMMANDS, activated := [], errorOutput := [] }).1 = .ok 1
    ∧ (Console.run
      { noPluginsFlag := true, noCacheFlag := false, directoryOpt := none,
        projectOpt := none, plugins := [], commandName := some "shell",
        body := fun s => (.ok 0, s) }
      { cwd := "/", disable_plugins := false, disable_cache := false,
        plugins_loaded := false, working_directory := "/", project_directory := none,
        registry := Console.COMMANDS, activated := [], errorOutput := [] }).2.1.errorOutput
      = [] ++ ["", Console.COMMAND_NOT_FOUND_PREFIX_MESSAGE,
          (Console.COMMAND_NOT_FOUND_MESSAGES "shell").getD ""] :=
  (Console.run_command_not_found
    { noPluginsFlag := true, noCacheFlag := false, directoryOpt := none,
      projectOpt := none, plugins := [], commandName := some "shell",
      body := fun s => (.ok 0, s) }
    { cwd := "/", disable_plugins := false, disable_cache := false,
      plugins_loaded := false, working_directory := "/", project_directory := none,
      registry := Console.COMMANDS, activated := [], errorOutput := [] }
    "shell" rfl (by decide)).1
    ((Console.COMMAND_NOT_FOUND_MESSAGES "shell").getD "") rfl
